import Mathlib

/-
Verification development for the partitioned SST download pipeline
(`download_data_sst.py`).  The pipeline splits a year range into sub-month
date intervals (`generate_date_ranges`), dispatches one download task per
interval with resume support (`retrieve_missing_data` / `retrieve_data`),
and merges the per-interval NetCDF files along the time dimension
(`merge_netcdf_files_xarray`).

The Python `datetime` library is embedded as a proleptic Gregorian calendar
over naturals (`Date`, `daysInMonth`, `addDays`, ...), matching CPython's
`datetime` semantics for years >= 1.  Network, filesystem and xarray
collaborators are modelled as explicit parameters: HTTP responses are
records of the fields the code reads, the filesystem is a predicate keyed
by the artifact path (itself keyed by the interval start date, mirroring
`f"{start_date}.nc"`, which is injective on dates), and `xarray.concat`
is, per its documented behaviour, plain concatenation of the labelled time
axes in argument order.
-/

/-- A calendar date, as in Python's `datetime` (year, month, day). -/
structure Date where
  year : Nat
  month : Nat
  day : Nat
deriving DecidableEq, Repr

/-- Gregorian leap-year rule, as implemented by Python's `calendar`/`datetime`. -/
def isLeap (y : Nat) : Bool :=
  decide (y % 4 = 0 ∧ (y % 100 ≠ 0 ∨ y % 400 = 0))

/-- Length of month `m` of year `y` in the Gregorian calendar
(the semantics of `datetime` month arithmetic). -/
def daysInMonth (y m : Nat) : Nat :=
  if m = 2 then (if isLeap y then 29 else 28)
  else if m = 4 ∨ m = 6 ∨ m = 9 ∨ m = 11 then 30 else 31

/-- Days in year `y` before the first day of month `m` (0 for January). -/
def daysBeforeMonth (y : Nat) : Nat → Nat
  | 0 => 0
  | 1 => 0
  | m + 2 => daysBeforeMonth y (m + 1) + daysInMonth y (m + 1)

/-- Days before January 1 of year `y` counting from year 1
(the standard proleptic-Gregorian ordinal base used by `datetime.toordinal`). -/
def daysBeforeYear (y : Nat) : Nat :=
  365 * (y - 1) + (y - 1) / 4 - (y - 1) / 100 + (y - 1) / 400

/-- Ordinal of a date (Python `datetime.toordinal`): a strictly increasing
day count used to reason about `timedelta` arithmetic and date ordering. -/
def toDays (d : Date) : Nat :=
  (daysBeforeYear d.year + daysBeforeMonth d.year d.month) + d.day

/-- Python `datetime.__le__`: lexicographic comparison of (year, month, day). -/
def dateLe (a b : Date) : Bool :=
  decide (a.year < b.year ∨ (a.year = b.year ∧
    (a.month < b.month ∨ (a.month = b.month ∧ a.day ≤ b.day))))

/-- The calendar successor of a date (`d + timedelta(days=1)`). -/
def nextDay (d : Date) : Date :=
  if d.day < daysInMonth d.year d.month then ⟨d.year, d.month, d.day + 1⟩
  else if d.month < 12 then ⟨d.year, d.month + 1, 1⟩
  else ⟨d.year + 1, 1, 1⟩

/-- The calendar predecessor of a date (`d - timedelta(days=1)`). -/
def prevDay (d : Date) : Date :=
  if 1 < d.day then ⟨d.year, d.month, d.day - 1⟩
  else if 1 < d.month then ⟨d.year, d.month - 1, daysInMonth d.year (d.month - 1)⟩
  else ⟨d.year - 1, 12, 31⟩

/-- `d + timedelta(days=n)`. -/
def addDays : Date → Nat → Date
  | d, 0 => d
  | d, n + 1 => addDays (nextDay d) n

/-- Body of the `while` loop of `generate_date_ranges`: split one month
into three parts.  `days_in_month = (end_of_month - start_date).days + 1`,
`part_size = days_in_month // 3`; the three emitted intervals are
`[start, start+part_size-1]`, `[next, next+part_size-1]`, `[next, end_of_month]`. -/
def monthSplit (start_date end_of_month : Date) : List (Date × Date) :=
  let days_in_month := toDays end_of_month - toDays start_date + 1
  let part_size := days_in_month / 3
  let end_part_1 := addDays start_date (part_size - 1)
  let start_part_2 := addDays end_part_1 1
  let end_part_2 := addDays start_part_2 (part_size - 1)
  let start_part_3 := addDays end_part_2 1
  [(start_date, end_part_1), (start_part_2, end_part_2), (start_part_3, end_of_month)]

/-- `end_of_month` computation of `generate_date_ranges`: for December,
`start_date.replace(day=31)`; otherwise the day before the first of the
next month. -/
def endOfMonth (start_date : Date) : Date :=
  if start_date.month = 12 then ⟨start_date.year, start_date.month, 31⟩
  else prevDay ⟨start_date.year, start_date.month + 1, 1⟩

/-- Month-cursor advance of `generate_date_ranges`: first day of the next
month (rolling over the year after December). -/
def nextMonthStart (start_date : Date) : Date :=
  if start_date.month = 12 then ⟨start_date.year + 1, 1, 1⟩
  else ⟨start_date.year, start_date.month + 1, 1⟩

/-- The `while start_date <= end_date` loop of `generate_date_ranges`,
with an explicit fuel bound.  The fuel passed by `generate_date_ranges`
strictly exceeds the number of iterations the loop can make, so the
`fuel = 0` branch is never reached (this is proved by the theorems below,
which compute the loop's full output for every input). -/
def grLoop (end_date : Date) : Nat → Date → List (Date × Date)
  | 0, _ => []
  | fuel + 1, start_date =>
    if dateLe start_date end_date then
      monthSplit start_date (endOfMonth start_date) ++
        grLoop end_date fuel (nextMonthStart start_date)
    else []

/-- `generate_date_ranges(start_year, end_year)` from the source: iterate
month by month from `datetime(start_year, 1, 1)` while the cursor is
`<= datetime(end_year, 1, 31)` (note: January 31, not December 31),
emitting three sub-intervals per month. -/
def generate_date_ranges (start_year end_year : Nat) : List (Date × Date) :=
  grLoop ⟨end_year, 1, 31⟩ (12 * end_year + 14) ⟨start_year, 1, 1⟩

/-- Decode a month counter `k = 12*y + m` (with `1 ≤ m ≤ 12`) back into
the pair `(y, m)`.  Used to enumerate the months the loop visits. -/
def monthOfKey (k : Nat) : Nat × Nat :=
  ((k - 1) / 12, (k - 1) % 12 + 1)

/-- The `n` consecutive months starting at month counter `k0`. -/
def monthsFromCount : Nat → Nat → List (Nat × Nat)
  | _, 0 => []
  | k0, n + 1 => monthOfKey k0 :: monthsFromCount (k0 + 1) n

/-- All months with counters in `[k0, k1]`, in chronological order. -/
def monthsUpTo (k0 k1 : Nat) : List (Nat × Nat) :=
  monthsFromCount k0 (k1 + 1 - k0)

/-- The months visited by `generate_date_ranges start_year end_year`
when `start_year ≤ end_year`: January of `start_year` up to January of
`end_year` (the truncated end boundary). -/
def monthsCovered (start_year end_year : Nat) : List (Nat × Nat) :=
  monthsUpTo (12 * start_year + 1) (12 * end_year + 1)

/-- Specification-side shape of one month's split (spec §4.1): with
`partSize = daysInMonth // 3`, the three intervals
`[1, partSize]`, `[partSize+1, 2*partSize]`, `[2*partSize+1, daysInMonth]`. -/
def monthThreeParts (ym : Nat × Nat) : List (Date × Date) :=
  [(⟨ym.1, ym.2, 1⟩, ⟨ym.1, ym.2, daysInMonth ym.1 ym.2 / 3⟩),
   (⟨ym.1, ym.2, daysInMonth ym.1 ym.2 / 3 + 1⟩,
    ⟨ym.1, ym.2, 2 * (daysInMonth ym.1 ym.2 / 3)⟩),
   (⟨ym.1, ym.2, 2 * (daysInMonth ym.1 ym.2 / 3) + 1⟩,
    ⟨ym.1, ym.2, daysInMonth ym.1 ym.2⟩)]

/-- An interval as a pair of day ordinals. -/
def dayPair (p : Date × Date) : Nat × Nat :=
  (toDays p.1, toDays p.2)

/-- `chainCovers d l = some e` iff the intervals of `l` are consecutive,
gap-free and overlap-free, starting exactly at day `d` and ending at day
`e - 1`: the canonical witness that `l` partitions the day range `[d, e)`. -/
def chainCovers : Nat → List (Nat × Nat) → Option Nat
  | d, [] => some d
  | d, (a, b) :: t => if a = d ∧ d ≤ b then chainCovers (b + 1) t else none

/-
Scheduler (`retrieve_missing_data`).  Artifact paths are keyed by the
interval start date (`os.path.join(output_dir, f"{start_date}.nc")`; the
`%Y-%m-%d` string is injective on dates, so a path is modelled by the
`Date` itself).  The filesystem is an existence predicate.  A task's
exception is tagged with the interval whose `retrieve_data` raised it;
`completion` is the order in which `as_completed` yields the futures
(any permutation of the submitted set).
-/

/-- The intervals submitted to the pool: those whose artifact path does not
exist (`if not os.path.exists(output_file): executor.submit(...)`). -/
def pendingTasks (date_ranges : List (Date × Date)) (ex : Date → Bool) :
    List (Date × Date) :=
  date_ranges.filter (fun r => ! ex r.1)

/-- The first raised exception in completion order: the `for future in
as_completed(futures): future.result()` loop re-raises the first failed
future it meets and never inspects the rest. -/
def firstErr (outcome : Date × Date → Except (Date × Date) Unit) :
    List (Date × Date) → Option (Date × Date)
  | [] => none
  | t :: ts =>
    match outcome t with
    | Except.error e => some e
    | Except.ok _ => firstErr outcome ts

deriving instance DecidableEq for Except

/-- Observable behaviour of one `retrieve_missing_data` call: the futures
submitted (in partition order), the tasks that ran to completion (in
completion order), and the result seen by the caller. -/
structure SchedResult where
  submitted : List (Date × Date)
  executed : List (Date × Date)
  result : Except (Date × Date) (List Date)
deriving DecidableEq, Repr

/-- `retrieve_missing_data(date_ranges, output_dir, workers)`.  Futures are
submitted for the non-existing artifacts; every submitted task runs to
completion (the `with ThreadPoolExecutor` block waits for all of them on
exit, even when `future.result()` raised inside it); the caller sees the
first exception in completion order, or on full success the complete
artifact-path list in partition order. -/
def retrieve_missing_data (date_ranges : List (Date × Date)) (ex : Date → Bool)
    (outcome : Date × Date → Except (Date × Date) Unit)
    (completion : List (Date × Date)) : SchedResult :=
  ⟨pendingTasks date_ranges ex, completion,
    match firstErr outcome completion with
    | some e => Except.error e
    | none => Except.ok (date_ranges.map Prod.fst)⟩

/-- The filesystem after a run in which every task of `succeeded` wrote its
artifact (a successful `retrieve_data` creates the file at the interval's
path). -/
def fsAfterRun (ex : Date → Bool) (succeeded : List (Date × Date)) :
    Date → Bool :=
  fun p => ex p || decide (p ∈ succeeded.map Prod.fst)

/-- Whether an `Except` is an error. -/
def isErrB {ε α : Type} : Except ε α → Bool
  | Except.error _ => true
  | Except.ok _ => false

/-- The tasks of `l` whose outcome is a raised exception. -/
def failedTasks (outcome : Date × Date → Except (Date × Date) Unit)
    (l : List (Date × Date)) : List (Date × Date) :=
  l.filter (fun t => isErrB (outcome t))

/-
Merger (`merge_netcdf_files_xarray`).  A NetCDF dataset is abstracted to
its time coordinate (the only dimension the merge manipulates).
`xr.open_dataset` raises when the file is missing or corrupt, modelled by
the filesystem returning `none` for its path; `xr.concat(datasets,
dim='time')` concatenates the labelled time axes in argument order and,
per the xarray contract, performs no monotonicity or overlap validation.
-/

/-- A dataset, abstracted to its time coordinate. -/
structure Dataset where
  times : List Int
deriving DecidableEq, Repr

/-- Outcome of `merge_netcdf_files_xarray`. -/
inductive MergeOutcome
  | raisedOpen
  | merged (d : Dataset)
deriving DecidableEq, Repr

/-- The list comprehension `[xr.open_dataset(file) for file in output_files]`:
raises (propagates `none`) at the first missing or corrupt input. -/
def openAll (fs : Date → Option Dataset) : List Date → Option (List Dataset)
  | [] => some []
  | f :: rest =>
    match fs f with
    | none => none
    | some d =>
      match openAll fs rest with
      | none => none
      | some ds => some (d :: ds)

/-- `xr.concat(datasets, dim='time', ...)`: concatenation of the time axes
in argument order, with no ordering or overlap check. -/
def xr_concat_time (ds : List Dataset) : Dataset :=
  ⟨(ds.map Dataset.times).flatten⟩

/-- `merge_netcdf_files_xarray(output_files, merged_file)`. -/
def merge_netcdf_files_xarray (fs : Date → Option Dataset)
    (output_files : List Date) : MergeOutcome :=
  match openAll fs output_files with
  | none => MergeOutcome.raisedOpen
  | some ds => MergeOutcome.merged (xr_concat_time ds)

/-
Downloader (`retrieve_data`).  HTTP responses are records of exactly the
fields the code reads; the remote side is a `World` of collaborator
behaviour (token source, search response, order response, poll endpoint).
The trace records the network calls issued, the content at the final
artifact path (`none` = the file was never created), and how the Python
function terminated.
-/

/-- One entry of the STAC `features` list, reduced to the field the code
reads: `feature["assets"]["downloadLink"]["href"]`. -/
structure Feature where
  href : String
deriving DecidableEq, Repr

/-- An HTTP response, reduced to the fields `retrieve_data` reads.
`json_ok = false` models a body that is not valid JSON; `features = none`
models a JSON body without a `"features"` key; `json_status` is
`response.json()["status"]` (`none` = key absent, so the access raises);
`chunks` is the body as yielded by `iter_content` (`Except.error` = the
connection fails mid-stream). -/
structure Resp where
  status_code : Nat
  text_empty : Bool
  json_ok : Bool
  features : Option (List Feature)
  json_status : Option String
  location : Option String
  chunks : List (Except Unit (List Nat))
deriving DecidableEq, Repr

/-- The external collaborators of one `retrieve_data` call. -/
structure World where
  token : Option String
  searchResp : Resp
  orderResp : Resp
  net : String → Resp

/-- A network call issued by `retrieve_data`, in order. -/
inductive NetCall
  | searchPost (authHeader : String)
  | orderGet (url : String)
  | pollGet (url : String)
deriving DecidableEq, Repr

/-- How the Python function terminated: a plain `return` (no exception),
a raised exception, or a completed download. -/
inductive PyOutcome
  | earlyReturn
  | raised
  | completed
deriving DecidableEq, Repr

/-- Observable trace of one `retrieve_data` call. -/
structure RDResult where
  calls : List NetCall
  file : Option (List Nat)
  outcome : PyOutcome
deriving DecidableEq, Repr

/-- `f"Bearer {access_token}"`: Python interpolates `None` as the string
`"None"`, so a null token yields the header `Bearer None`. -/
def bearerOf : Option String → String
  | none => "Bearer None"
  | some t => "Bearer " ++ t

/-- `response.raise_for_status()`: raises exactly for 4xx/5xx codes. -/
def raiseForStatus (s : Nat) : Bool :=
  decide (400 ≤ s ∧ s < 600)

/-- The chunked write loop `for data in response.iter_content(1024):
f.write(data)`, starting from already-written content `acc`: on a
mid-stream error the exception propagates and the content written so far
stays in the file. -/
def writeChunks : List Nat → List (Except Unit (List Nat)) → List Nat × PyOutcome
  | acc, [] => (acc, PyOutcome.completed)
  | acc, Except.ok c :: rest => writeChunks (acc ++ c) rest
  | acc, Except.error _ :: _ => (acc, PyOutcome.raised)

/-- Steps 5–6 of `retrieve_data`: `open(filename, 'wb')` creates the file
at the final artifact path immediately (there is no temporary path), then
the body is streamed into it chunk by chunk. -/
def streamDownload (r : Resp) (calls : List NetCall) : RDResult :=
  ⟨calls, some (writeChunks [] r.chunks).1, (writeChunks [] r.chunks).2⟩

/-- The polling loop `while url := response.headers.get("Location"): ...
response = requests.get(url)`, with an explicit fuel bound: `none` means
the loop has not terminated within `fuel` iterations (the code itself has
no iteration bound, no delay and no timeout).  A response without a
`Location` header exits the loop; a poll body without a `"status"` key
raises (`response.json()['status']`). -/
def pollLoopFuel (net : String → Resp) : Nat → Resp → Option (List NetCall × Except Unit Resp)
  | fuel, r =>
    match r.location with
    | none => some ([], Except.ok r)
    | some url =>
      match r.json_status with
      | none => some ([], Except.error ())
      | some _ =>
        match fuel with
        | 0 => none
        | f + 1 =>
          match pollLoopFuel net f (net url) with
          | none => none
          | some (cs, res) => some (NetCall.pollGet url :: cs, res)

/-- `retrieve_data(start_date, end_date, output_file)` as a function of its
collaborators.  Returns `none` when the unbounded polling loop has not
terminated within `fuel` polls; otherwise the observable trace.  Faithful
to the source order: authenticate (a null token is logged but does NOT
abort — the search POST is still issued with header `Bearer None`), STAC
search (non-200 status, empty body, invalid JSON, absent or empty
`features` each cause a plain `return`), pick `features[0]`, GET its
`downloadLink` (4xx/5xx raises), poll while a `Location` header is
present, raise on a 4xx/5xx final status, then stream to the output path. -/
def retrieve_data (w : World) (fuel : Nat) : Option RDResult :=
  let calls0 := [NetCall.searchPost (bearerOf w.token)]
  let r := w.searchResp
  if r.status_code ≠ 200 then some ⟨calls0, none, PyOutcome.earlyReturn⟩
  else if r.text_empty then some ⟨calls0, none, PyOutcome.earlyReturn⟩
  else if ¬ r.json_ok then some ⟨calls0, none, PyOutcome.earlyReturn⟩
  else
    match r.features with
    | none => some ⟨calls0, none, PyOutcome.earlyReturn⟩
    | some [] => some ⟨calls0, none, PyOutcome.earlyReturn⟩
    | some (product :: _) =>
      let calls1 := calls0 ++ [NetCall.orderGet product.href]
      let resp := w.orderResp
      let direct := if resp.status_code = 200 then product.href else ""
      if raiseForStatus resp.status_code then some ⟨calls1, none, PyOutcome.raised⟩
      else
        match (if direct = "" then pollLoopFuel w.net fuel resp
               else some ([], Except.ok resp)) with
        | none => none
        | some (pcalls, Except.error _) =>
          some ⟨calls1 ++ pcalls, none, PyOutcome.raised⟩
        | some (pcalls, Except.ok rfin) =>
          if raiseForStatus rfin.status_code then
            some ⟨calls1 ++ pcalls, none, PyOutcome.raised⟩
          else some (streamDownload rfin (calls1 ++ pcalls))

/-
Concrete collaborator instances used by the counterexample and
failing-input theorems.
-/

/-- A response with the given status and nothing else of interest. -/
def plainResp (s : Nat) : Resp :=
  ⟨s, false, true, none, none, none, []⟩

/-- A 202 "order accepted" poll response that always carries a follow-up
`Location` header and a `"status"` field: the order never resolves. -/
def pendingResp : Resp :=
  ⟨202, false, true, none, some "running", some "poll", []⟩

/-- World with a null token (the credential source failed). -/
def wNullToken : World :=
  ⟨none, plainResp 404, plainResp 500, fun _ => plainResp 500⟩

/-- World whose search succeeds but returns zero features. -/
def wNoMatch : World :=
  ⟨some "tok", ⟨200, false, true, some [], none, none, []⟩,
   plainResp 200, fun _ => plainResp 200⟩

/-- World whose download stream dies after the first chunk. -/
def wMidStream : World :=
  ⟨some "tok", ⟨200, false, true, some [⟨"http://x/dl"⟩], none, none, []⟩,
   ⟨200, false, true, none, none, none, [Except.ok [7], Except.error ()]⟩,
   fun _ => plainResp 200⟩

/-- World whose order is accepted (202) but never resolves: every poll
response carries another `Location`. -/
def wForever : World :=
  ⟨some "tok", ⟨200, false, true, some [⟨"http://x/dl"⟩], none, none, []⟩,
   pendingResp, fun _ => pendingResp⟩

/-- World whose order GET answers with a terminal HTTP error (404). -/
def wOrderFail : World :=
  ⟨some "tok", ⟨200, false, true, some [⟨"http://x/dl"⟩], none, none, []⟩,
   plainResp 404, fun _ => plainResp 200⟩

/-- Two intervals used by the scheduler counterexample. -/
def ivA : Date × Date := (⟨2021, 1, 1⟩, ⟨2021, 1, 10⟩)

/-- Second interval of the scheduler counterexample. -/
def ivB : Date × Date := (⟨2021, 1, 11⟩, ⟨2021, 1, 20⟩)

/-- Outcome map under which every task raises (tagged with its interval). -/
def allFail : Date × Date → Except (Date × Date) Unit :=
  fun r => Except.error r

/-- Outcome map under which every task succeeds. -/
def allOk : Date × Date → Except (Date × Date) Unit :=
  fun _ => Except.ok ()

/-- Filesystem of the merge counterexample: two artifacts whose time
coordinates overlap at day 2. -/
def fsOverlap : Date → Option Dataset :=
  fun d => if d = ivA.1 then some ⟨[1, 2]⟩
    else if d = ivB.1 then some ⟨[2, 3]⟩ else none

/-
Helper lemmas: calendar arithmetic.
-/

lemma daysInMonth_bounds (y m : Nat) :
    28 ≤ daysInMonth y m ∧ daysInMonth y m ≤ 31 := by
  unfold daysInMonth
  split_ifs <;> omega

lemma daysInMonth_one (y : Nat) : daysInMonth y 1 = 31 := by
  simp [daysInMonth]

lemma daysInMonth_twelve (y : Nat) : daysInMonth y 12 = 31 := by
  simp [daysInMonth]

lemma daysBeforeMonth_succ (y m : Nat) (h : 1 ≤ m) :
    daysBeforeMonth y (m + 1) = daysBeforeMonth y m + daysInMonth y m := by
  obtain ⟨k, rfl⟩ : ∃ k, m = k + 1 := ⟨m - 1, by omega⟩
  rfl

lemma daysBeforeMonth_one (y : Nat) : daysBeforeMonth y 1 = 0 := rfl

lemma daysBeforeMonth_twelve (y : Nat) :
    daysBeforeMonth y 12 = if isLeap y then 335 else 334 := by
  by_cases h : isLeap y = true <;>
    simp [daysBeforeMonth, daysInMonth, h]

lemma daysBeforeYear_succ (y : Nat) (hy : 1 ≤ y) :
    daysBeforeYear (y + 1) = daysBeforeYear y + (if isLeap y then 366 else 365) := by
  obtain ⟨k, rfl⟩ : ∃ k, y = k + 1 := ⟨y - 1, by omega⟩
  have e4 : (k + 1) / 4 = k / 4 + if (k + 1) % 4 = 0 then 1 else 0 := by
    rw [Nat.succ_div]
    congr 1
    simp [Nat.dvd_iff_mod_eq_zero]
  have e100 : (k + 1) / 100 = k / 100 + if (k + 1) % 100 = 0 then 1 else 0 := by
    rw [Nat.succ_div]
    congr 1
    simp [Nat.dvd_iff_mod_eq_zero]
  have e400 : (k + 1) / 400 = k / 400 + if (k + 1) % 400 = 0 then 1 else 0 := by
    rw [Nat.succ_div]
    congr 1
    simp [Nat.dvd_iff_mod_eq_zero]
  unfold daysBeforeYear isLeap
  simp only [Nat.add_sub_cancel]
  rw [e4, e100, e400]
  simp only [decide_eq_true_eq]
  by_cases h4 : (k + 1) % 4 = 0 <;> by_cases h100 : (k + 1) % 100 = 0 <;>
    by_cases h400 : (k + 1) % 400 = 0 <;>
    simp [h4, h100, h400] <;> omega

lemma addDays_in_month (y m : Nat) : ∀ (n d : Nat), d + n ≤ daysInMonth y m →
    addDays ⟨y, m, d⟩ n = ⟨y, m, d + n⟩ := by
  intro n
  induction n with
  | zero => intro d _; rfl
  | succ k ih =>
    intro d h
    have hd : d < daysInMonth y m := by omega
    show addDays (nextDay ⟨y, m, d⟩) k = _
    rw [show nextDay ⟨y, m, d⟩ = ⟨y, m, d + 1⟩ from by simp [nextDay, hd]]
    rw [ih (d + 1) (by omega)]
    simp only [Date.mk.injEq, true_and, and_true]
    omega

/-
Helper lemmas: the month loop of `generate_date_ranges`.
-/

lemma endOfMonth_eq (y m : Nat) (h1 : 1 ≤ m) (h2 : m ≤ 12) :
    endOfMonth ⟨y, m, 1⟩ = ⟨y, m, daysInMonth y m⟩ := by
  by_cases h : m = 12
  · subst h
    simp [endOfMonth, daysInMonth]
  · simp only [endOfMonth]
    rw [if_neg (by simpa using h)]
    simp [prevDay, show (1 : Nat) < m + 1 from by omega]

lemma monthSplit_eq (y m : Nat) :
    monthSplit ⟨y, m, 1⟩ ⟨y, m, daysInMonth y m⟩ = monthThreeParts (y, m) := by
  have hb := daysInMonth_bounds y m
  have hdm : toDays ⟨y, m, daysInMonth y m⟩ - toDays ⟨y, m, 1⟩ + 1 = daysInMonth y m := by
    simp only [toDays]
    omega
  have e1 : addDays ⟨y, m, 1⟩ (daysInMonth y m / 3 - 1) = ⟨y, m, daysInMonth y m / 3⟩ := by
    rw [addDays_in_month y m _ 1 (by omega)]
    simp only [Date.mk.injEq, true_and, and_true]
    omega
  have e2 : addDays ⟨y, m, daysInMonth y m / 3⟩ 1 = ⟨y, m, daysInMonth y m / 3 + 1⟩ :=
    addDays_in_month y m 1 _ (by omega)
  have e3 : addDays ⟨y, m, daysInMonth y m / 3 + 1⟩ (daysInMonth y m / 3 - 1) =
      ⟨y, m, 2 * (daysInMonth y m / 3)⟩ := by
    rw [addDays_in_month y m _ _ (by omega)]
    simp only [Date.mk.injEq, true_and, and_true]
    omega
  have e4 : addDays ⟨y, m, 2 * (daysInMonth y m / 3)⟩ 1 =
      ⟨y, m, 2 * (daysInMonth y m / 3) + 1⟩ :=
    addDays_in_month y m 1 _ (by omega)
  simp only [monthSplit, hdm, e1, e2, e3, e4, monthThreeParts]

lemma dateLe_cursor (y m ey : Nat) (h1 : 1 ≤ m) (h2 : m ≤ 12) :
    dateLe ⟨y, m, 1⟩ ⟨ey, 1, 31⟩ = true ↔ 12 * y + m ≤ 12 * ey + 1 := by
  simp only [dateLe, decide_eq_true_eq]
  omega

lemma grLoop_stop (e c : Date) (fuel : Nat) (h : dateLe c e = false) :
    grLoop e fuel c = [] := by
  cases fuel with
  | zero => rfl
  | succ f => simp [grLoop, h]

lemma monthOfKey_eq (y m : Nat) (h1 : 1 ≤ m) (h2 : m ≤ 12) :
    monthOfKey (12 * y + m) = (y, m) := by
  unfold monthOfKey
  rw [show (12 * y + m - 1) / 12 = y from by omega,
    show (12 * y + m - 1) % 12 = m - 1 from by omega]
  simp only [Prod.mk.injEq, true_and, and_true]
  omega

lemma monthsUpTo_cons (k0 k1 : Nat) (h : k0 ≤ k1) :
    monthsUpTo k0 k1 = monthOfKey k0 :: monthsUpTo (k0 + 1) k1 := by
  unfold monthsUpTo
  rw [show k1 + 1 - k0 = (k1 + 1 - (k0 + 1)) + 1 from by omega]
  rfl

lemma monthsUpTo_nil (k0 k1 : Nat) (h : k1 < k0) : monthsUpTo k0 k1 = [] := by
  unfold monthsUpTo
  rw [show k1 + 1 - k0 = 0 from by omega]
  rfl

lemma grLoop_eq (ey : Nat) : ∀ (fuel y m : Nat), 1 ≤ m → m ≤ 12 →
    12 * y + m ≤ 12 * ey + 1 → 12 * ey + 1 - (12 * y + m) < fuel →
    grLoop ⟨ey, 1, 31⟩ fuel ⟨y, m, 1⟩ =
      ((monthsUpTo (12 * y + m) (12 * ey + 1)).map monthThreeParts).flatten := by
  intro fuel
  induction fuel with
  | zero => intro y m _ _ _ h4; omega
  | succ f ih =>
    intro y m h1 h2 h3 h4
    have hguard : dateLe ⟨y, m, 1⟩ ⟨ey, 1, 31⟩ = true := (dateLe_cursor y m ey h1 h2).mpr h3
    simp only [grLoop]
    rw [if_pos hguard, endOfMonth_eq y m h1 h2, monthSplit_eq y m]
    by_cases hlast : 12 * y + m = 12 * ey + 1
    · have hm : m = 1 := by omega
      have hy : y = ey := by omega
      subst hm
      subst hy
      rw [show nextMonthStart ⟨y, 1, 1⟩ = ⟨y, 2, 1⟩ from by simp [nextMonthStart]]
      rw [grLoop_stop _ _ _ (by simp [dateLe])]
      rw [monthsUpTo_cons _ _ (by omega), monthsUpTo_nil _ _ (by omega)]
      rw [monthOfKey_eq y 1 (by omega) (by omega)]
      simp
    · rw [monthsUpTo_cons _ _ (by omega), monthOfKey_eq y m h1 h2]
      simp only [List.map_cons, List.flatten_cons]
      congr 1
      by_cases hm12 : m = 12
      · subst hm12
        rw [show nextMonthStart ⟨y, 12, 1⟩ = ⟨y + 1, 1, 1⟩ from by simp [nextMonthStart]]
        rw [ih (y + 1) 1 (by omega) (by omega) (by omega) (by omega)]
        rw [show 12 * (y + 1) + 1 = 12 * y + 12 + 1 from by ring]
      · rw [show nextMonthStart ⟨y, m, 1⟩ = ⟨y, m + 1, 1⟩ from by simp [nextMonthStart, hm12]]
        rw [ih y (m + 1) (by omega) (by omega) (by omega) (by omega)]
        rw [show 12 * y + (m + 1) = 12 * y + m + 1 from by ring]

lemma generate_eq_months (sy ey : Nat) (h : sy ≤ ey) :
    generate_date_ranges sy ey = ((monthsCovered sy ey).map monthThreeParts).flatten := by
  unfold generate_date_ranges monthsCovered
  exact grLoop_eq ey (12 * ey + 14) sy 1 (by omega) (by omega) (by omega) (by omega)

/-
Helper lemmas: day-ordinal coverage of the generated intervals.
-/

lemma toDays_nextMonth (y m : Nat) (hy : 1 ≤ y) (h1 : 1 ≤ m) (h2 : m ≤ 12) :
    toDays ⟨y, m, 1⟩ + daysInMonth y m = toDays (nextMonthStart ⟨y, m, 1⟩) := by
  by_cases hm : m = 12
  · subst hm
    rw [show nextMonthStart ⟨y, 12, 1⟩ = ⟨y + 1, 1, 1⟩ from by simp [nextMonthStart]]
    simp only [toDays]
    rw [daysBeforeYear_succ y hy, daysBeforeMonth_twelve, daysInMonth_twelve,
      daysBeforeMonth_one]
    by_cases hl : isLeap y = true <;> simp [hl]
  · rw [show nextMonthStart ⟨y, m, 1⟩ = ⟨y, m + 1, 1⟩ from by simp [nextMonthStart, hm]]
    simp only [toDays]
    rw [daysBeforeMonth_succ y m h1]
    omega

lemma month_chain (y m : Nat) :
    chainCovers (toDays ⟨y, m, 1⟩) ((monthThreeParts (y, m)).map dayPair) =
      some (toDays ⟨y, m, 1⟩ + daysInMonth y m) := by
  have hb := daysInMonth_bounds y m
  simp only [monthThreeParts, List.map_cons, List.map_nil, dayPair, toDays]
  generalize daysBeforeYear y + daysBeforeMonth y m = B
  generalize hdim : daysInMonth y m = dim
  rw [hdim] at hb
  simp only [chainCovers]
  have c1 : True ∧ B + 1 ≤ B + dim / 3 := ⟨trivial, by omega⟩
  rw [if_pos c1]
  have c2 : B + (dim / 3 + 1) = B + dim / 3 + 1 ∧
      B + dim / 3 + 1 ≤ B + 2 * (dim / 3) := by omega
  rw [if_pos c2]
  have c3 : B + (2 * (dim / 3) + 1) = B + 2 * (dim / 3) + 1 ∧
      B + 2 * (dim / 3) + 1 ≤ B + dim := by omega
  rw [if_pos c3]
  simp only [Option.some.injEq]
  omega

lemma chainCovers_append (d : Nat) (l1 l2 : List (Nat × Nat)) :
    chainCovers d (l1 ++ l2) = (chainCovers d l1).bind (fun e => chainCovers e l2) := by
  induction l1 generalizing d with
  | nil => simp [chainCovers]
  | cons p t ih =>
    obtain ⟨a, b⟩ := p
    simp only [List.cons_append, chainCovers]
    by_cases h : a = d ∧ d ≤ b
    · rw [if_pos h, if_pos h]
      exact ih (b + 1)
    · rw [if_neg h, if_neg h]
      simp

lemma months_chain (ey : Nat) : ∀ (n y m : Nat), 1 ≤ y → 1 ≤ m → m ≤ 12 →
    12 * y + m ≤ 12 * ey + 1 → 12 * ey + 1 - (12 * y + m) < n →
    chainCovers (toDays ⟨y, m, 1⟩)
      ((((monthsUpTo (12 * y + m) (12 * ey + 1)).map monthThreeParts).flatten).map dayPair) =
      some (toDays ⟨ey, 1, 31⟩ + 1) := by
  intro n
  induction n with
  | zero => intro y m _ _ _ _ h5; omega
  | succ nn ih =>
    intro y m hy h1 h2 h3 h4
    rw [monthsUpTo_cons _ _ (by omega), monthOfKey_eq y m h1 h2]
    simp only [List.map_cons, List.flatten_cons, List.map_append]
    rw [chainCovers_append, month_chain]
    simp only [Option.some_bind]
    by_cases hlast : 12 * y + m = 12 * ey + 1
    · have hm : m = 1 := by omega
      have hye : y = ey := by omega
      subst hm
      subst hye
      rw [monthsUpTo_nil _ _ (by omega)]
      simp only [List.map_nil, List.flatten_nil, chainCovers, daysInMonth_one,
        Option.some.injEq, toDays, daysBeforeMonth_one]
    · rw [toDays_nextMonth y m hy h1 h2]
      by_cases hm12 : m = 12
      · subst hm12
        rw [show nextMonthStart ⟨y, 12, 1⟩ = ⟨y + 1, 1, 1⟩ from by simp [nextMonthStart]]
        have hr := ih (y + 1) 1 (by omega) (by omega) (by omega) (by omega) (by omega)
        rw [show 12 * (y + 1) + 1 = 12 * y + 12 + 1 from by ring] at hr
        exact hr
      · rw [show nextMonthStart ⟨y, m, 1⟩ = ⟨y, m + 1, 1⟩ from by
          simp [nextMonthStart, hm12]]
        have hr := ih y (m + 1) (by omega) (by omega) (by omega) (by omega) (by omega)
        rw [show 12 * y + (m + 1) = 12 * y + m + 1 from by ring] at hr
        exact hr

lemma generate_chain (sy ey : Nat) (h1 : 1 ≤ sy) (h2 : sy ≤ ey) :
    chainCovers (toDays ⟨sy, 1, 1⟩) ((generate_date_ranges sy ey).map dayPair) =
      some (toDays ⟨ey, 1, 31⟩ + 1) := by
  rw [generate_eq_months sy ey h2]
  unfold monthsCovered
  exact months_chain ey (12 * ey + 2) sy 1 h1 (by omega) (by omega) (by omega) (by omega)

lemma chainCovers_mono (l : List (Nat × Nat)) : ∀ d e, chainCovers d l = some e → d ≤ e := by
  induction l with
  | nil =>
    intro d e h
    simp only [chainCovers, Option.some.injEq] at h
    omega
  | cons q t ih =>
    intro d e h
    obtain ⟨a, b⟩ := q
    simp only [chainCovers] at h
    by_cases hc : a = d ∧ d ≤ b
    · rw [if_pos hc] at h
      have := ih (b + 1) e h
      omega
    · rw [if_neg hc] at h
      simp at h

lemma chainCovers_bounds (l : List (Nat × Nat)) : ∀ d e, chainCovers d l = some e →
    ∀ p ∈ l, d ≤ p.1 ∧ p.1 ≤ p.2 ∧ p.2 < e := by
  induction l with
  | nil =>
    intro d e _ p hp
    cases hp
  | cons q t ih =>
    intro d e h p hp
    obtain ⟨a, b⟩ := q
    simp only [chainCovers] at h
    by_cases hc : a = d ∧ d ≤ b
    · rw [if_pos hc] at h
      obtain ⟨hc1, hc2⟩ := hc
      rcases List.mem_cons.mp hp with rfl | h1
      · have hmono := chainCovers_mono t (b + 1) e h
        show d ≤ a ∧ a ≤ b ∧ b < e
        omega
      · obtain ⟨u1, u2, u3⟩ := ih (b + 1) e h p h1
        exact ⟨by omega, u2, u3⟩
    · rw [if_neg hc] at h
      simp at h

lemma chainCovers_pairwise (l : List (Nat × Nat)) : ∀ d e, chainCovers d l = some e →
    l.Pairwise (fun p q => p.2 < q.1) := by
  induction l with
  | nil => intro d e _; exact List.Pairwise.nil
  | cons q t ih =>
    intro d e h
    obtain ⟨a, b⟩ := q
    simp only [chainCovers] at h
    by_cases hc : a = d ∧ d ≤ b
    · rw [if_pos hc] at h
      refine List.Pairwise.cons ?_ (ih (b + 1) e h)
      intro p hp
      have hb := chainCovers_bounds t (b + 1) e h p hp
      show b < p.1
      omega
    · rw [if_neg hc] at h
      simp at h

lemma chainCovers_count (l : List (Nat × Nat)) : ∀ d e, chainCovers d l = some e →
    ∀ x, d ≤ x → x < e →
    l.countP (fun p => decide (p.1 ≤ x ∧ x ≤ p.2)) = 1 := by
  induction l with
  | nil =>
    intro d e h x h1 h2
    simp only [chainCovers, Option.some.injEq] at h
    omega
  | cons q t ih =>
    intro d e h x h1 h2
    obtain ⟨a, b⟩ := q
    simp only [chainCovers] at h
    by_cases hc : a = d ∧ d ≤ b
    · rw [if_pos hc] at h
      obtain ⟨hc1, hc2⟩ := hc
      rw [List.countP_cons]
      by_cases hx : x ≤ b
      · have hz : t.countP (fun p => decide (p.1 ≤ x ∧ x ≤ p.2)) = 0 := by
          rw [List.countP_eq_zero]
          intro p hp
          have hb := chainCovers_bounds t (b + 1) e h p hp
          simp only [decide_eq_true_eq]
          omega
        have hh : (decide ((a, b).1 ≤ x ∧ x ≤ (a, b).2)) = true := by
          simp only [decide_eq_true_eq]
          show a ≤ x ∧ x ≤ b
          omega
        rw [hz, if_pos hh]
      · have hh : ¬ ((decide ((a, b).1 ≤ x ∧ x ≤ (a, b).2)) = true) := by
          simp only [decide_eq_true_eq]
          show ¬ (a ≤ x ∧ x ≤ b)
          omega
        rw [if_neg hh, ih (b + 1) e h x (by omega) h2]
    · rw [if_neg hc] at h
      simp at h

lemma monthsFromCount_snoc : ∀ (n k0 : Nat),
    monthsFromCount k0 (n + 1) = monthsFromCount k0 n ++ [monthOfKey (k0 + n)] := by
  intro n
  induction n with
  | zero => intro k0; simp [monthsFromCount]
  | succ nn ih =>
    intro k0
    show monthOfKey k0 :: monthsFromCount (k0 + 1) (nn + 1) =
      (monthOfKey k0 :: monthsFromCount (k0 + 1) nn) ++ [monthOfKey (k0 + (nn + 1))]
    rw [ih (k0 + 1), List.cons_append,
      show k0 + 1 + nn = k0 + (nn + 1) from by omega]

lemma monthsUpTo_snoc (k0 k1 : Nat) (h0 : 1 ≤ k0) (h : k0 ≤ k1) :
    monthsUpTo k0 k1 = monthsUpTo k0 (k1 - 1) ++ [monthOfKey k1] := by
  unfold monthsUpTo
  rw [show k1 + 1 - k0 = (k1 - k0) + 1 from by omega, monthsFromCount_snoc,
    show k0 + (k1 - k0) = k1 from by omega, show k1 - 1 + 1 - k0 = k1 - k0 from by omega]

lemma mem_monthsFromCount : ∀ (n k0 : Nat) (ym : Nat × Nat),
    ym ∈ monthsFromCount k0 n → ∃ i, i < n ∧ ym = monthOfKey (k0 + i) := by
  intro n
  induction n with
  | zero => intro k0 ym h; cases h
  | succ nn ih =>
    intro k0 ym h
    rcases List.mem_cons.mp h with rfl | h1
    · exact ⟨0, by omega, by simp⟩
    · obtain ⟨i, hi, he⟩ := ih (k0 + 1) ym h1
      refine ⟨i + 1, by omega, ?_⟩
      rw [he]
      congr 1
      omega

/-- C1: For every `startYear <= endYear` (with `startYear >= 1`, the domain
of `datetime`), `generate_date_ranges` splits every covered month into
exactly the three sub-intervals `[1, partSize]`, `[partSize+1, 2*partSize]`,
`[2*partSize+1, monthEnd]` with `partSize = daysInMonth // 3`; the emitted
sequence is chronologically ordered and pairwise non-overlapping (every
interval ends strictly before the next begins), and covers every day of
the covered range exactly once; in particular the 31-day first month
yields `[1,10], [11,20], [21,31]`. -/
theorem C1_range_partitioner (sy ey : Nat) (h1 : 1 ≤ sy) (h2 : sy ≤ ey) :
    generate_date_ranges sy ey = ((monthsCovered sy ey).map monthThreeParts).flatten ∧
    (generate_date_ranges sy ey).Pairwise (fun p q => toDays p.2 < toDays q.1) ∧
    (∀ x : Nat, toDays ⟨sy, 1, 1⟩ ≤ x → x ≤ toDays ⟨ey, 1, 31⟩ →
      (generate_date_ranges sy ey).countP
        (fun p => decide (toDays p.1 ≤ x ∧ x ≤ toDays p.2)) = 1) ∧
    (generate_date_ranges sy ey).take 3 =
      [(⟨sy, 1, 1⟩, ⟨sy, 1, 10⟩), (⟨sy, 1, 11⟩, ⟨sy, 1, 20⟩),
       (⟨sy, 1, 21⟩, ⟨sy, 1, 31⟩)] := by
  have hshape := generate_eq_months sy ey h2
  have hchain := generate_chain sy ey h1 h2
  refine ⟨hshape, ?_, ?_, ?_⟩
  · have hp := chainCovers_pairwise _ _ _ hchain
    rw [List.pairwise_map] at hp
    exact hp
  · intro x hx1 hx2
    have hc := chainCovers_count _ _ _ hchain x hx1 (by omega)
    rw [List.countP_map] at hc
    exact hc
  · rw [hshape]
    unfold monthsCovered
    rw [monthsUpTo_cons _ _ (by omega), monthOfKey_eq sy 1 (by omega) (by omega)]
    simp [monthThreeParts, daysInMonth_one]

/-- Witness for C1 at the concrete input (2021, 2021). -/
theorem C1_range_partitioner_witness :
    (1 ≤ 2021 ∧ 2021 ≤ 2021) ∧
    (generate_date_ranges 2021 2021 =
        ((monthsCovered 2021 2021).map monthThreeParts).flatten ∧
      (generate_date_ranges 2021 2021).Pairwise (fun p q => toDays p.2 < toDays q.1) ∧
      (∀ x : Nat, toDays ⟨2021, 1, 1⟩ ≤ x → x ≤ toDays ⟨2021, 1, 31⟩ →
        (generate_date_ranges 2021 2021).countP
          (fun p => decide (toDays p.1 ≤ x ∧ x ≤ toDays p.2)) = 1) ∧
      (generate_date_ranges 2021 2021).take 3 =
        [(⟨2021, 1, 1⟩, ⟨2021, 1, 10⟩), (⟨2021, 1, 11⟩, ⟨2021, 1, 20⟩),
         (⟨2021, 1, 21⟩, ⟨2021, 1, 31⟩)]) :=
  ⟨⟨by decide, by decide⟩, C1_range_partitioner 2021 2021 (by decide) (by decide)⟩

/-- C3: for `1 <= startYear <= endYear` the iteration is truncated at
January 31 of `endYear`: the last emitted interval is
`[endYear-01-21, endYear-01-31]`, no emitted day lies after January 31 of
`endYear`, and the only covered month of `endYear` is January. -/
theorem C3_end_truncation (sy ey : Nat) (h1 : 1 ≤ sy) (h2 : sy ≤ ey) :
    (generate_date_ranges sy ey).getLast? = some (⟨ey, 1, 21⟩, ⟨ey, 1, 31⟩) ∧
    (∀ p ∈ generate_date_ranges sy ey, toDays p.2 ≤ toDays ⟨ey, 1, 31⟩) ∧
    (∀ p ∈ generate_date_ranges sy ey, p.1.year = ey → p.1.month = 1) := by
  have hshape := generate_eq_months sy ey h2
  refine ⟨?_, ?_, ?_⟩
  · rw [hshape]
    unfold monthsCovered
    rw [monthsUpTo_snoc _ _ (by omega) (by omega)]
    rw [show monthOfKey (12 * ey + 1) = (ey, 1) from monthOfKey_eq ey 1 (by omega) (by omega)]
    rw [List.map_append, List.flatten_append]
    simp only [List.map_cons, List.map_nil, List.flatten_cons, List.flatten_nil]
    rw [show monthThreeParts (ey, 1) =
        [(⟨ey, 1, 1⟩, ⟨ey, 1, 10⟩), (⟨ey, 1, 11⟩, ⟨ey, 1, 20⟩),
         (⟨ey, 1, 21⟩, ⟨ey, 1, 31⟩)] from by simp [monthThreeParts, daysInMonth_one]]
    rw [List.append_nil]
    rw [show ((monthsUpTo (12 * sy + 1) (12 * ey + 1 - 1)).map monthThreeParts).flatten ++
        [(⟨ey, 1, 1⟩, ⟨ey, 1, 10⟩), (⟨ey, 1, 11⟩, ⟨ey, 1, 20⟩),
         (⟨ey, 1, 21⟩, ⟨ey, 1, 31⟩)] =
        (((monthsUpTo (12 * sy + 1) (12 * ey + 1 - 1)).map monthThreeParts).flatten ++
          [(⟨ey, 1, 1⟩, ⟨ey, 1, 10⟩), (⟨ey, 1, 11⟩, ⟨ey, 1, 20⟩)]) ++
          [(⟨ey, 1, 21⟩, ⟨ey, 1, 31⟩)] from by simp]
    exact List.getLast?_concat _
  · intro p hp
    have hb := chainCovers_bounds _ _ _ (generate_chain sy ey h1 h2) (dayPair p)
      (List.mem_map_of_mem dayPair hp)
    have hlt : toDays p.2 < toDays ⟨ey, 1, 31⟩ + 1 := hb.2.2
    omega
  · intro p hp hyear
    rw [hshape] at hp
    obtain ⟨blk, hblk, hpblk⟩ := List.mem_flatten.mp hp
    obtain ⟨ym, hym, rfl⟩ := List.mem_map.mp hblk
    obtain ⟨i, hi, rfl⟩ := mem_monthsFromCount _ _ ym hym
    have hkey : 12 * sy + 1 + i ≤ 12 * ey + 1 := by
      unfold monthsCovered monthsUpTo at hym
      omega
    have hy1 : p.1.year = (12 * sy + 1 + i - 1) / 12 ∧
        p.1.month = (12 * sy + 1 + i - 1) % 12 + 1 := by
      simp only [monthThreeParts, monthOfKey, List.mem_cons, List.mem_singleton] at hpblk
      rcases hpblk with rfl | rfl | rfl | h
      · exact ⟨rfl, rfl⟩
      · exact ⟨rfl, rfl⟩
      · exact ⟨rfl, rfl⟩
      · cases h
    rw [hyear] at hy1
    obtain ⟨hu, hv⟩ := hy1
    rw [hv]
    omega

/-- Witness for C3 at the concrete input (2020, 2021). -/
theorem C3_end_truncation_witness :
    (1 ≤ 2020 ∧ 2020 ≤ 2021) ∧
    ((generate_date_ranges 2020 2021).getLast? = some (⟨2021, 1, 21⟩, ⟨2021, 1, 31⟩) ∧
     (∀ p ∈ generate_date_ranges 2020 2021, toDays p.2 ≤ toDays ⟨2021, 1, 31⟩) ∧
     (∀ p ∈ generate_date_ranges 2020 2021, p.1.year = 2021 → p.1.month = 1)) :=
  ⟨⟨by decide, by decide⟩, C3_end_truncation 2020 2021 (by decide) (by decide)⟩

/-- C10: when `startYear > endYear` the very first loop guard
`datetime(startYear,1,1) <= datetime(endYear,1,31)` fails, so
`generate_date_ranges` returns the empty list and the scheduler has no
work to dispatch. -/
theorem C10_reversed_years_empty (sy ey : Nat) (h : ey < sy) :
    generate_date_ranges sy ey = [] := by
  unfold generate_date_ranges
  apply grLoop_stop
  simp only [dateLe, decide_eq_false_iff_not]
  omega

/-- Witness for C10 at the concrete input (2022, 2021). -/
theorem C10_reversed_years_empty_witness :
    2021 < 2022 ∧ generate_date_ranges 2022 2021 = [] :=
  ⟨by decide, C10_reversed_years_empty 2022 2021 (by decide)⟩

/-
Helper lemmas: the scheduler's `as_completed` loop.
-/

lemma firstErr_some_mem (outcome : Date × Date → Except (Date × Date) Unit) :
    ∀ (l : List (Date × Date)) (e : Date × Date), firstErr outcome l = some e →
      ∃ t ∈ l, outcome t = Except.error e := by
  intro l
  induction l with
  | nil => intro e h; cases h
  | cons a t ih =>
    intro e h
    simp only [firstErr] at h
    cases ha : outcome a with
    | error u =>
      rw [ha] at h
      simp only [Option.some.injEq] at h
      exact ⟨a, List.mem_cons_self a t, by rw [ha, h]⟩
    | ok u =>
      rw [ha] at h
      obtain ⟨t', ht', he⟩ := ih e h
      exact ⟨t', List.mem_cons_of_mem a ht', he⟩

lemma firstErr_none_of (outcome : Date × Date → Except (Date × Date) Unit) :
    ∀ (l : List (Date × Date)), (∀ t ∈ l, outcome t = Except.ok ()) →
      firstErr outcome l = none := by
  intro l
  induction l with
  | nil => intro _; rfl
  | cons a t ih =>
    intro h
    simp only [firstErr]
    rw [h a (List.mem_cons_self a t)]
    exact ih (fun t' ht' => h t' (List.mem_cons_of_mem a ht'))

lemma firstErr_isSome (outcome : Date × Date → Except (Date × Date) Unit) :
    ∀ (l : List (Date × Date)) (t : Date × Date), t ∈ l → isErrB (outcome t) = true →
      (firstErr outcome l).isSome = true := by
  intro l
  induction l with
  | nil => intro t ht _; cases ht
  | cons a tl ih =>
    intro t ht herr
    simp only [firstErr]
    cases ha : outcome a with
    | error u => rfl
    | ok u =>
      rcases List.mem_cons.mp ht with rfl | h1
      · rw [ha] at herr
        simp [isErrB] at herr
      · exact ih t h1 herr

/-- C2 counterexample: two submitted tasks both fail, yet the caller sees
only the exception of the first task in completion order — the propagated
failure does not identify the other failed interval, so there is no
aggregate error. -/
theorem C2_fail_last_counterexample :
    (retrieve_missing_data [ivA, ivB] (fun _ => false) allFail [ivA, ivB]).result =
      Except.error ivA ∧
    failedTasks allFail [ivA, ivB] = [ivA, ivB] ∧
    ivA ≠ ivB :=
  ⟨rfl, rfl, by decide⟩

/-- C2 (amended): if any task fails, every submitted task still runs to
completion before the caller sees the failure (the executor's scope waits
for them), but the propagated failure is the single exception of the first
failed task in completion order — not an aggregate error listing every
failed interval; on full success the caller receives the complete
artifact-path list in partition order. -/
theorem C2_fail_last_amended (date_ranges : List (Date × Date)) (ex : Date → Bool)
    (outcome : Date × Date → Except (Date × Date) Unit)
    (completion : List (Date × Date))
    (hperm : completion.Perm (pendingTasks date_ranges ex)) :
    (∀ t ∈ pendingTasks date_ranges ex,
      t ∈ (retrieve_missing_data date_ranges ex outcome completion).executed) ∧
    ((∃ t ∈ pendingTasks date_ranges ex, isErrB (outcome t) = true) →
      ∃ e, (retrieve_missing_data date_ranges ex outcome completion).result =
          Except.error e ∧
        ∃ t ∈ pendingTasks date_ranges ex, outcome t = Except.error e) ∧
    ((∀ t ∈ pendingTasks date_ranges ex, outcome t = Except.ok ()) →
      (retrieve_missing_data date_ranges ex outcome completion).result =
        Except.ok (date_ranges.map Prod.fst)) := by
  refine ⟨?_, ?_, ?_⟩
  · intro t ht
    exact hperm.mem_iff.mpr ht
  · rintro ⟨t, ht, herr⟩
    have htc : t ∈ completion := hperm.mem_iff.mpr ht
    have hsome := firstErr_isSome outcome completion t htc herr
    obtain ⟨e, he⟩ := Option.isSome_iff_exists.mp hsome
    refine ⟨e, ?_, ?_⟩
    · show (match firstErr outcome completion with
        | some e => Except.error e
        | none => Except.ok (date_ranges.map Prod.fst)) = Except.error e
      rw [he]
    · obtain ⟨t', ht', he'⟩ := firstErr_some_mem outcome completion e he
      exact ⟨t', hperm.mem_iff.mp ht', he'⟩
  · intro hok
    have hnone := firstErr_none_of outcome completion
      (fun t ht => hok t (hperm.mem_iff.mp ht))
    show (match firstErr outcome completion with
      | some e => Except.error e
      | none => Except.ok (date_ranges.map Prod.fst)) = _
    rw [hnone]

/-- Witness for C2 (amended) at a concrete one-task instance. -/
theorem C2_fail_last_amended_witness :
    ([ivA].Perm (pendingTasks [ivA] (fun _ => false))) ∧
    ((∀ t ∈ pendingTasks [ivA] (fun _ => false),
        t ∈ (retrieve_missing_data [ivA] (fun _ => false) allOk [ivA]).executed) ∧
     ((∃ t ∈ pendingTasks [ivA] (fun _ => false), isErrB (allOk t) = true) →
       ∃ e, (retrieve_missing_data [ivA] (fun _ => false) allOk [ivA]).result =
           Except.error e ∧
         ∃ t ∈ pendingTasks [ivA] (fun _ => false), allOk t = Except.error e) ∧
     ((∀ t ∈ pendingTasks [ivA] (fun _ => false), allOk t = Except.ok ()) →
       (retrieve_missing_data [ivA] (fun _ => false) allOk [ivA]).result =
         Except.ok ([ivA].map Prod.fst))) :=
  ⟨by decide, C2_fail_last_amended [ivA] (fun _ => false) allOk [ivA] (by decide)⟩

/-
Helper lemmas: the merge's `open_dataset` comprehension.
-/

lemma openAll_none (fs : Date → Option Dataset) :
    ∀ (files : List Date), (∃ f ∈ files, fs f = none) → openAll fs files = none := by
  intro files
  induction files with
  | nil => rintro ⟨f, hf, _⟩; cases hf
  | cons a t ih =>
    rintro ⟨f, hf, hn⟩
    simp only [openAll]
    rcases List.mem_cons.mp hf with rfl | h1
    · rw [hn]
    · cases ha : fs a with
      | none => rfl
      | some d => rw [ih ⟨f, h1, hn⟩]

lemma openAll_some (fs : Date → Option Dataset) :
    ∀ (files : List Date), (∀ f ∈ files, (fs f).isSome = true) →
      ∃ ds, openAll fs files = some ds := by
  intro files
  induction files with
  | nil => intro _; exact ⟨[], rfl⟩
  | cons a t ih =>
    intro h
    obtain ⟨d, hd⟩ := Option.isSome_iff_exists.mp (h a (List.mem_cons_self a t))
    obtain ⟨ds, hds⟩ := ih (fun f hf => h f (List.mem_cons_of_mem a hf))
    refine ⟨d :: ds, ?_⟩
    simp only [openAll]
    rw [hd, hds]

/-- C4 counterexample: two artifacts whose time coordinates overlap (the
first ends at time 2, the second starts at time 2) are merged without any
error: the merge succeeds and produces a non-strictly-sorted time axis,
instead of failing with a `MergeError`. -/
theorem C4_merge_counterexample :
    merge_netcdf_files_xarray fsOverlap [ivA.1, ivB.1] =
      MergeOutcome.merged ⟨[1, 2, 2, 3]⟩ ∧
    ¬ List.Chain' (fun a b : Int => a < b) [1, 2, 2, 3] :=
  ⟨rfl, by simp [List.chain'_cons]⟩

/-- C4 (amended): the merge raises (aborts) whenever some input artifact is
missing or corrupt — `xr.open_dataset` fails — so an incomplete artifact
set does abort the merge; but when every input opens, the merge always
succeeds, concatenating the time axes in input order with no
monotonicity or overlap validation whatsoever (no `MergeError` for
out-of-order or overlapping time coordinates). -/
theorem C4_merge_amended (fs : Date → Option Dataset) (files : List Date) :
    ((∃ f ∈ files, fs f = none) →
      merge_netcdf_files_xarray fs files = MergeOutcome.raisedOpen) ∧
    ((∀ f ∈ files, (fs f).isSome = true) →
      ∃ ds, openAll fs files = some ds ∧
        merge_netcdf_files_xarray fs files =
          MergeOutcome.merged ⟨(ds.map Dataset.times).flatten⟩) := by
  constructor
  · intro h
    unfold merge_netcdf_files_xarray
    rw [openAll_none fs files h]
  · intro h
    obtain ⟨ds, hds⟩ := openAll_some fs files h
    refine ⟨ds, hds, ?_⟩
    unfold merge_netcdf_files_xarray
    rw [hds]
    rfl

/-- Witness for C4 (amended) at the concrete overlapping filesystem. -/
theorem C4_merge_amended_witness :
    ((∃ f ∈ [ivA.1, ivB.1], fsOverlap f = none) →
      merge_netcdf_files_xarray fsOverlap [ivA.1, ivB.1] = MergeOutcome.raisedOpen) ∧
    ((∀ f ∈ [ivA.1, ivB.1], (fsOverlap f).isSome = true) →
      ∃ ds, openAll fsOverlap [ivA.1, ivB.1] = some ds ∧
        merge_netcdf_files_xarray fsOverlap [ivA.1, ivB.1] =
          MergeOutcome.merged ⟨(ds.map Dataset.times).flatten⟩) :=
  C4_merge_amended fsOverlap [ivA.1, ivB.1]

/-- C5: contrary to the claim, a null token from the credential source is
NOT fatal: `retrieve_data` logs the failure and still issues the STAC
search POST, with the literal header `Bearer None` (Python interpolates
`None` into the f-string).  Evaluated at the failing input: the token is
`None` and the trace contains the network call. -/
theorem C5_null_token_still_calls_network :
    wNullToken.token = none ∧
    retrieve_data wNullToken 0 =
      some ⟨[NetCall.searchPost "Bearer None"], none, PyOutcome.earlyReturn⟩ :=
  ⟨rfl, rfl⟩

/-- C6 counterexample: a well-formed search response with zero features
makes `retrieve_data` return normally (plain `return None`) — no
`NoMatchError` or any other exception reaches the caller. -/
theorem C6_search_counterexample :
    retrieve_data wNoMatch 0 =
      some ⟨[NetCall.searchPost "Bearer tok"], none, PyOutcome.earlyReturn⟩ ∧
    wNoMatch.searchResp.features = some [] ∧
    PyOutcome.earlyReturn ≠ PyOutcome.raised :=
  ⟨rfl, rfl, by decide⟩

/-- C6 (amended): a non-success search status, an empty body, an invalid
JSON body, an absent `features` key, or an empty `features` list each make
the search step abort the task with a plain early `return` — no exception
is raised and no further network call is made; when features exist the
first feature in response order is selected: the order GET targets its
`downloadLink` href. -/
theorem C6_search_amended (w : World) (fuel : Nat) :
    ((w.searchResp.status_code ≠ 200 ∨ w.searchResp.text_empty = true ∨
        w.searchResp.json_ok = false ∨ w.searchResp.features = none ∨
        w.searchResp.features = some []) →
      retrieve_data w fuel =
        some ⟨[NetCall.searchPost (bearerOf w.token)], none, PyOutcome.earlyReturn⟩) ∧
    (∀ (f : Feature) (rest : List Feature), w.searchResp.status_code = 200 →
      w.searchResp.text_empty = false → w.searchResp.json_ok = true →
      w.searchResp.features = some (f :: rest) →
      ∀ res, retrieve_data w fuel = some res →
        res.calls.take 2 =
          [NetCall.searchPost (bearerOf w.token), NetCall.orderGet f.href]) := by
  constructor
  · intro h
    unfold retrieve_data
    by_cases h1 : w.searchResp.status_code ≠ 200
    · simp [h1]
    · by_cases h2 : w.searchResp.text_empty
      · simp [h1, h2]
      · by_cases h3 : w.searchResp.json_ok
        · rcases h with hh | hh | hh | hh | hh
          · exact absurd hh h1
          · exact absurd hh (by simpa using h2)
          · rw [hh] at h3
            cases h3
          · simp [h1, h2, h3, hh]
          · simp [h1, h2, h3, hh]
        · simp [h1, h2, h3]
  · intro f rest h200 hte hj hf res hres
    have hcanon : retrieve_data w fuel =
        (if raiseForStatus w.orderResp.status_code = true then
          some ⟨[NetCall.searchPost (bearerOf w.token)] ++ [NetCall.orderGet f.href],
            none, PyOutcome.raised⟩
        else
          match (if (if w.orderResp.status_code = 200 then f.href else "") = ""
              then pollLoopFuel w.net fuel w.orderResp
              else some ([], Except.ok w.orderResp)) with
          | none => none
          | some (pcalls, Except.error _) =>
            some ⟨([NetCall.searchPost (bearerOf w.token)] ++
              [NetCall.orderGet f.href]) ++ pcalls, none, PyOutcome.raised⟩
          | some (pcalls, Except.ok rfin) =>
            if raiseForStatus rfin.status_code = true then
              some ⟨([NetCall.searchPost (bearerOf w.token)] ++
                [NetCall.orderGet f.href]) ++ pcalls, none, PyOutcome.raised⟩
            else some (streamDownload rfin
              (([NetCall.searchPost (bearerOf w.token)] ++
                [NetCall.orderGet f.href]) ++ pcalls))) := by
      unfold retrieve_data
      rw [if_neg (by simp [h200]), if_neg (by simp [hte]), if_neg (by simp [hj]), hf]
    rw [hcanon] at hres
    by_cases hrs : raiseForStatus w.orderResp.status_code = true
    · rw [if_pos hrs] at hres
      simp only [Option.some.injEq] at hres
      rw [← hres]
      rfl
    · rw [if_neg hrs] at hres
      cases hpoll : (if (if w.orderResp.status_code = 200 then f.href else "") = ""
          then pollLoopFuel w.net fuel w.orderResp
          else some ([], Except.ok w.orderResp)) with
      | none =>
        rw [hpoll] at hres
        cases hres
      | some pr =>
        obtain ⟨pcalls, pres⟩ := pr
        rw [hpoll] at hres
        cases pres with
        | error u =>
          simp only [Option.some.injEq] at hres
          rw [← hres]
          rfl
        | ok rfin =>
          have hres2 : (if raiseForStatus rfin.status_code = true then
              some (⟨([NetCall.searchPost (bearerOf w.token)] ++
                [NetCall.orderGet f.href]) ++ pcalls, none, PyOutcome.raised⟩ : RDResult)
            else some (streamDownload rfin
              (([NetCall.searchPost (bearerOf w.token)] ++
                [NetCall.orderGet f.href]) ++ pcalls))) = some res := hres
          by_cases hrs2 : raiseForStatus rfin.status_code = true
          · rw [if_pos hrs2] at hres2
            simp only [Option.some.injEq] at hres2
            rw [← hres2]
            rfl
          · rw [if_neg hrs2] at hres2
            simp only [Option.some.injEq] at hres2
            rw [← hres2]
            rfl

/-- Witness for C6 (amended) at the concrete zero-feature world. -/
theorem C6_search_amended_witness :
    ((wNoMatch.searchResp.status_code ≠ 200 ∨ wNoMatch.searchResp.text_empty = true ∨
        wNoMatch.searchResp.json_ok = false ∨ wNoMatch.searchResp.features = none ∨
        wNoMatch.searchResp.features = some []) →
      retrieve_data wNoMatch 0 =
        some ⟨[NetCall.searchPost (bearerOf wNoMatch.token)], none,
          PyOutcome.earlyReturn⟩) ∧
    (∀ (f : Feature) (rest : List Feature), wNoMatch.searchResp.status_code = 200 →
      wNoMatch.searchResp.text_empty = false → wNoMatch.searchResp.json_ok = true →
      wNoMatch.searchResp.features = some (f :: rest) →
      ∀ res, retrieve_data wNoMatch 0 = some res →
        res.calls.take 2 =
          [NetCall.searchPost (bearerOf wNoMatch.token), NetCall.orderGet f.href]) :=
  C6_search_amended wNoMatch 0

/-
Helper lemmas: the chunked write loop.
-/

lemma writeChunks_all : ∀ (good : List (List Nat)) (acc : List Nat),
    writeChunks acc (good.map Except.ok) = (acc ++ good.flatten, PyOutcome.completed) := by
  intro good
  induction good with
  | nil => intro acc; simp [writeChunks]
  | cons c t ih =>
    intro acc
    show writeChunks (acc ++ c) (t.map Except.ok) = _
    rw [ih (acc ++ c)]
    simp

lemma writeChunks_mid : ∀ (good : List (List Nat)) (acc : List Nat)
    (rest2 : List (Except Unit (List Nat))),
    writeChunks acc ((good.map Except.ok) ++ Except.error () :: rest2) =
      (acc ++ good.flatten, PyOutcome.raised) := by
  intro good
  induction good with
  | nil => intro acc rest2; simp [writeChunks]
  | cons c t ih =>
    intro acc rest2
    show writeChunks (acc ++ c) ((t.map Except.ok) ++ Except.error () :: rest2) = _
    rw [ih (acc ++ c)]
    simp

/-- C8 counterexample: a download whose stream dies after the first chunk
leaves the partial content at the FINAL artifact path (the code opens
`output_file` directly; there is no temporary path and no rename), while
the task terminates with a raised exception — exactly the partial file the
claim says can never exist. -/
theorem C8_partial_file_counterexample :
    retrieve_data wMidStream 0 =
      some ⟨[NetCall.searchPost "Bearer tok", NetCall.orderGet "http://x/dl"],
        some [7], PyOutcome.raised⟩ ∧
    (some [7] : Option (List Nat)) ≠ none :=
  ⟨rfl, by decide⟩

/-- C8 (amended): on a terminal HTTP error status of the order GET the
downloader raises (`raise_for_status`) before the output file is opened,
so no file at all appears at the artifact path in that case; but streaming
writes directly to the final artifact path: a mid-stream failure leaves
exactly the already-written prefix there (with a raised exception), and
only a fully consumed stream completes with the whole content. -/
theorem C8_download_amended (w : World) (fuel : Nat) (f : Feature)
    (rest : List Feature)
    (h200 : w.searchResp.status_code = 200) (hte : w.searchResp.text_empty = false)
    (hj : w.searchResp.json_ok = true) (hf : w.searchResp.features = some (f :: rest))
    (herr : raiseForStatus w.orderResp.status_code = true) :
    retrieve_data w fuel =
      some ⟨[NetCall.searchPost (bearerOf w.token)] ++ [NetCall.orderGet f.href],
        none, PyOutcome.raised⟩ ∧
    (∀ (good : List (List Nat)) (rest2 : List (Except Unit (List Nat)))
        (r : Resp) (calls : List NetCall),
      r.chunks = (good.map Except.ok) ++ Except.error () :: rest2 →
      streamDownload r calls = ⟨calls, some good.flatten, PyOutcome.raised⟩) ∧
    (∀ (good : List (List Nat)) (r : Resp) (calls : List NetCall),
      r.chunks = good.map Except.ok →
      streamDownload r calls = ⟨calls, some good.flatten, PyOutcome.completed⟩) := by
  refine ⟨?_, ?_, ?_⟩
  · unfold retrieve_data
    rw [if_neg (by simp [h200]), if_neg (by simp [hte]), if_neg (by simp [hj]), hf]
    show (if raiseForStatus w.orderResp.status_code = true then _ else _) = _
    rw [if_pos herr]
  · intro good rest2 r calls hchunks
    unfold streamDownload
    rw [hchunks, writeChunks_mid good [] rest2]
    simp
  · intro good r calls hchunks
    unfold streamDownload
    rw [hchunks, writeChunks_all good []]
    simp

/-- Witness for C8 (amended) at the concrete 404-order world. -/
theorem C8_download_amended_witness :
    (wOrderFail.searchResp.status_code = 200 ∧ wOrderFail.searchResp.text_empty = false ∧
     wOrderFail.searchResp.json_ok = true ∧
     wOrderFail.searchResp.features = some [⟨"http://x/dl"⟩] ∧
     raiseForStatus wOrderFail.orderResp.status_code = true) ∧
    (retrieve_data wOrderFail 0 =
      some ⟨[NetCall.searchPost (bearerOf wOrderFail.token)] ++
        [NetCall.orderGet (Feature.mk "http://x/dl").href], none, PyOutcome.raised⟩ ∧
    (∀ (good : List (List Nat)) (rest2 : List (Except Unit (List Nat)))
        (r : Resp) (calls : List NetCall),
      r.chunks = (good.map Except.ok) ++ Except.error () :: rest2 →
      streamDownload r calls = ⟨calls, some good.flatten, PyOutcome.raised⟩) ∧
    (∀ (good : List (List Nat)) (r : Resp) (calls : List NetCall),
      r.chunks = good.map Except.ok →
      streamDownload r calls = ⟨calls, some good.flatten, PyOutcome.completed⟩)) :=
  ⟨⟨rfl, rfl, rfl, rfl, rfl⟩,
   C8_download_amended wOrderFail 0 ⟨"http://x/dl"⟩ [] rfl rfl rfl rfl rfl⟩

/-
Helper lemma: the polling loop never terminates when every response
carries a `Location` header.
-/

lemma pollLoop_never_terminates (net : String → Resp)
    (hl : ∀ url, (net url).location.isSome = true)
    (hs : ∀ url, (net url).json_status.isSome = true) :
    ∀ (fuel : Nat) (r : Resp), r.location.isSome = true →
      r.json_status.isSome = true → pollLoopFuel net fuel r = none := by
  intro fuel
  induction fuel with
  | zero =>
    intro r hr hrs
    obtain ⟨u, hu⟩ := Option.isSome_iff_exists.mp hr
    obtain ⟨sst, hss⟩ := Option.isSome_iff_exists.mp hrs
    simp [pollLoopFuel, hu, hss]
  | succ fl ih =>
    intro r hr hrs
    obtain ⟨u, hu⟩ := Option.isSome_iff_exists.mp hr
    obtain ⟨sst, hss⟩ := Option.isSome_iff_exists.mp hrs
    simp [pollLoopFuel, hu, hss, ih (net u) (hl u) (hs u)]

/-- C9 counterexample: against a server whose order is accepted (202) and
whose every poll response carries another `Location` header and a
`"status"` field, `retrieve_data` never terminates — for no poll budget
does it produce a result, and no `PollTimeoutError` exists in the code
(the loop has no delay, no retry bound and no timeout). -/
theorem C9_poll_nontermination_counterexample :
    ¬ (∃ fuel res, retrieve_data wForever fuel = some res) := by
  rintro ⟨fuel, res, h⟩
  have hp : pollLoopFuel (fun _ => pendingResp) fuel pendingResp = none :=
    pollLoop_never_terminates (fun _ => pendingResp) (fun _ => rfl) (fun _ => rfl)
      fuel pendingResp rfl rfl
  have hnone : retrieve_data wForever fuel = none := by
    show (match pollLoopFuel (fun _ => pendingResp) fuel pendingResp with
      | none => (none : Option RDResult)
      | some (pcalls, Except.error _) =>
        some ⟨([NetCall.searchPost "Bearer tok"] ++
          [NetCall.orderGet "http://x/dl"]) ++ pcalls, none, PyOutcome.raised⟩
      | some (pcalls, Except.ok rfin) =>
        if raiseForStatus rfin.status_code = true then
          some ⟨([NetCall.searchPost "Bearer tok"] ++
            [NetCall.orderGet "http://x/dl"]) ++ pcalls, none, PyOutcome.raised⟩
        else some (streamDownload rfin (([NetCall.searchPost "Bearer tok"] ++
          [NetCall.orderGet "http://x/dl"]) ++ pcalls))) = none
    rw [hp]
  rw [hnone] at h
  cases h

/-- C9 (amended): the polling loop terminates only because some response
lacks a `Location` header — a response without `Location` exits the loop
immediately for every poll budget; with a response source that always
supplies `Location` and `"status"`, the loop runs forever (there is no
maximum wait and no `PollTimeoutError` in the code). -/
theorem C9_poll_amended (net : String → Resp) (r : Resp)
    (hl : ∀ url, (net url).location.isSome = true)
    (hs : ∀ url, (net url).json_status.isSome = true)
    (hr : r.location.isSome = true) (hrs : r.json_status.isSome = true) :
    (∀ fuel, pollLoopFuel net fuel r = none) ∧
    (∀ (net2 : String → Resp) (r2 : Resp) (fuel : Nat), r2.location = none →
      pollLoopFuel net2 fuel r2 = some ([], Except.ok r2)) := by
  constructor
  · intro fuel
    exact pollLoop_never_terminates net hl hs fuel r hr hrs
  · intro net2 r2 fuel h2
    simp [pollLoopFuel, h2]

/-- Witness for C9 (amended) at the constant always-pending poll server. -/
theorem C9_poll_amended_witness :
    ((∀ url, ((fun _ : String => pendingResp) url).location.isSome = true) ∧
     (∀ url, ((fun _ : String => pendingResp) url).json_status.isSome = true) ∧
     pendingResp.location.isSome = true ∧ pendingResp.json_status.isSome = true) ∧
    ((∀ fuel, pollLoopFuel (fun _ => pendingResp) fuel pendingResp = none) ∧
     (∀ (net2 : String → Resp) (r2 : Resp) (fuel : Nat), r2.location = none →
       pollLoopFuel net2 fuel r2 = some ([], Except.ok r2))) :=
  ⟨⟨fun _ => rfl, fun _ => rfl, rfl, rfl⟩,
   C9_poll_amended (fun _ => pendingResp) pendingResp (fun _ => rfl) (fun _ => rfl)
     rfl rfl⟩

/-- C7: resume is idempotent.  An interval is dispatched iff its expected
artifact path does not yet exist (existence only — the filesystem
predicate is consulted, never any checksum); the scheduler submits exactly
that pending subset; and after a run in which every pending task wrote its
artifact, a second run over the same output directory has an empty pending
set — zero redundant downloads. -/
theorem C7_resume_idempotent (date_ranges : List (Date × Date)) (ex : Date → Bool)
    (outcome : Date × Date → Except (Date × Date) Unit) :
    (∀ r, r ∈ pendingTasks date_ranges ex ↔ r ∈ date_ranges ∧ ex r.1 = false) ∧
    (retrieve_missing_data date_ranges ex outcome
      (pendingTasks date_ranges ex)).submitted = pendingTasks date_ranges ex ∧
    pendingTasks date_ranges (fsAfterRun ex (pendingTasks date_ranges ex)) = [] := by
  refine ⟨?_, rfl, ?_⟩
  · intro r
    unfold pendingTasks
    rw [List.mem_filter]
    simp
  · unfold pendingTasks
    rw [List.filter_eq_nil_iff]
    intro r hr
    by_cases hex : ex r.1 = true
    · simp [fsAfterRun, hex]
    · have hexf : ex r.1 = false := by
        revert hex
        cases ex r.1 <;> simp
      simp [fsAfterRun, hexf]
      exact ⟨r.2, hr⟩
